import Mathlib

/-!
Verification of the meme-rendering core of `memegen` (src/memegen/domain/image.py)
against its natural-language specification.

The Python module is shallowly embedded below:

* `splitPy` embeds `_split` (text as `List Char`, mirroring Python `str` indexing);
* `maximizeGo` / `maximizeFontSize` embed the decrementing `while` loop of
  `_maximize_font_size`, and `optimizeFontSize` embeds `_optimize_font_size`.
  The external font-measurement capability (`ImageFont.truetype(..).getsize`)
  is a parameter `measure : Int → String → Int × Int` (font size ↦ text ↦
  (width, height)), since PIL is an external collaborator;
* `imagePath` / `imageHash` embed `Image.path` / `Image.hash`; the external
  `hashlib.md5(..).hexdigest()` is a parameter `md5hex : String → String`
  applied to the concatenation of all bytes fed to `update` (md5 of a stream
  of updates is md5 of their concatenation);
* `PILImage` and `generateImg` embed `_generate`: the PIL image is modeled by
  its size, mode and format tag (the pixel buffer itself is external), and the
  PIL primitives (`resize`, `convert`, `point`, `filter`, `paste`) by their
  effect on that state.  Python's float arithmetic on `ratio` is modeled by
  exact integer arithmetic over the cross-multiplied fractions, which agrees
  with the float computation on all inputs relevant here; `int()` truncation
  toward zero is `Int.tdiv`.  A `ZeroDivisionError` (background height 0, or
  background width 0 in branches dividing by `ratio`) is modeled as `none`.

All numbers are `Int`/`Nat` (Python ints are unbounded).  Python truthiness of
the optional values involved is modeled explicitly (`pyTruthy`,
`pyTruthyOptInt`).
-/

namespace Memegen

/-- Space character, the split separator of `_split`. -/
def spaceChar : Char := ' '

/-- Arbitrary non-space default used to totalize list indexing `text[i]`;
every access below is in range, so the default is never returned. -/
def defCh : Char := 'x'

/-- Proximity `abs(i - len(text) // 2)` of index `i` to the midpoint, from
`_split`. -/
def prox (len i : Nat) : Nat := ((i : Int) - ((len / 2 : Nat) : Int)).natAbs

/-- Test `text[i] == ' '` of `_split`'s list comprehension. -/
def isSpaceAt (text : List Char) (i : Nat) : Bool := text.getD i defCh == spaceChar

/-- The list `space_indices = [i for i in range(len(text)) if text[i] == ' ']`. -/
def spaceIndices (text : List Char) : List Nat :=
  (List.range text.length).filter (isSpaceAt text)

/-- Python's `min` on a list of naturals; the `[]` case is never reached at
call sites (Python `min` raises there). -/
def pyMin : List Nat → Nat
  | [] => 0
  | x :: xs => xs.foldl min x

/-- The value `min(space_proximities)` computed by `_split`. -/
def minProx (text : List Char) : Nat :=
  pyMin ((spaceIndices text).map (prox text.length))

/-- Embedding of `_split`.  The `for`/`break` loop selects the first space
index (in ascending order) whose proximity to the midpoint equals the
minimum proximity, which is exactly `find?` below; `text[:j]` is `take j` and
`text[j+1:]` is `drop (j+1)`; the guard `' ' in text[1:-1]` is membership in
`(text.drop 1).dropLast`.  `result` stays `(text,)` when the guard fails, and
the `none` branch of the `match` (the loop never firing) is unreachable. -/
def splitPy (text : List Char) : List (List Char) :=
  if 3 ≤ text.length ∧ spaceChar ∈ (text.drop 1).dropLast then
    match (spaceIndices text).find? (fun j => prox text.length j == minProx text) with
    | some j => [text.take j, text.drop (j + 1)]
    | none => [text]
  else [text]

/-- String-level wrapper of `splitPy` (Python `_split` consumes and returns
`str`). -/
def splitStr (s : String) : List String := (splitPy s.data).map (fun cs => String.mk cs)

/-- Embedding of the `while text_size[0] > max_size and font_size > 1` loop of
`_maximize_font_size`, as fuel-indexed structural recursion.  The loop
decreases `fontSize` by exactly 1 per pass and only runs while `fontSize > 1`,
so any fuel `≥ fontSize.toNat - 1` makes the fuel bound unreachable: the `0`
case returning `fontSize` coincides with the loop's own exit (`fontSize ≤ 1`
there, see `maximizeGo_fuel_irrelevant` uses below). -/
def maximizeGo (measure : Int → String → Int × Int) (text : String) (maxSize : Int) :
    Nat → Int → Int
  | 0, fontSize => fontSize
  | fuel + 1, fontSize =>
    if (measure fontSize text).1 > maxSize ∧ fontSize > 1 then
      maximizeGo measure text maxSize fuel (fontSize - 1)
    else fontSize

/-- Embedding of `_maximize_font_size`: the search starts at `font_size =
max_size` (the pixel width bound!) and decrements. -/
def maximizeFontSize (measure : Int → String → Int × Int) (text : String)
    (maxSize : Int) : Int :=
  maximizeGo measure text maxSize maxSize.toNat maxSize

/-- Newline joining the phrases, from `'\n'.join(phrases)`. -/
def newlineStr : String := "\n"

/-- Embedding of `_optimize_font_size`.  Python `//` on a positive divisor is
`Int.fdiv`; `len(phrases)` is 1 or 2. -/
def optimizeFontSize (measure : Int → String → Int × Int) (text : String)
    (maxFontSize minFontSize maxTextLen : Int) : Int × String :=
  let textSize := measure minFontSize text
  let phrases := if textSize.1 > maxTextLen then splitStr text else [text]
  let fontSize0 := Int.fdiv maxFontSize (phrases.length : Int)
  let fontSize := phrases.foldl
    (fun fs phrase => min (maximizeFontSize measure phrase maxTextLen) fs) fontSize0
  (fontSize, String.intercalate newlineStr phrases)

/-- Linear font model used for concrete evaluations: a glyph is `size` pixels
wide, so `getsize` returns `(size * len(text), size)`.  Its width is monotone
in the font size. -/
def measureLin (size : Int) (text : String) : Int × Int :=
  (size * (text.length : Int), size)

/-- Degenerate font model measuring every string as 0 pixels wide (in
particular the empty string, like any real font). -/
def measureZero (size : Int) (text : String) : Int × Int := (0, size)

/-- Model of the Python values held by the style-affecting fields of `Image`
(`style`, `font`, `watermark`, `width`, `height`): `None`, strings, ints, and
booleans, with Python truthiness. -/
inductive PyVal where
  | vNone
  | vStr (s : String)
  | vInt (n : Int)
  | vBool (b : Bool)
deriving DecidableEq

/-- Python truthiness: `None`, `""`, `0` and `False` are falsy. -/
def pyTruthy : PyVal → Bool
  | .vNone => false
  | .vStr s => s != ""
  | .vInt n => n != 0
  | .vBool b => b

/-- Literal `str(None)`. -/
def noneLit : String := "None"

/-- Literal `str(True)`. -/
def trueLit : String := "True"

/-- Literal `str(False)`. -/
def falseLit : String := "False"

/-- Python `str()` of a `PyVal` (as interpolated by `"{}".format`). -/
def pyStr : PyVal → String
  | .vNone => noneLit
  | .vStr s => s
  | .vInt n => toString n
  | .vBool b => if b then trueLit else falseLit

/-- The expression `value or ""` of `Image.hash`, rendered by `format`:
a falsy field serializes as the empty string. -/
def orEmpty (v : PyVal) : String := if pyTruthy v then pyStr v else ""

/-- Literal `":"` of the `"{}:{}"` serialization format. -/
def colonStr : String := ":"

/-- Literal `"#"` separating the base path from the digest. -/
def hashMark : String := "#"

/-- Literal `".img"` extension. -/
def imgExt : String := ".img"

/-- The byte stream fed to md5 by `Image.hash`: the concatenation over the
enumerated fields of `"{}:{}".format(index, value or "")`. -/
def serializeHash (values : List PyVal) : String :=
  String.join (values.enum.map (fun p => toString p.1 ++ colonStr ++ orEmpty p.2))

/-- Embedding of `Image.hash`, parameterized by the external digest
`md5hex : String → String` (`hashlib.md5(..).hexdigest()` over the
concatenated updates). -/
def imageHash (md5hex : String → String) (values : List PyVal) : String :=
  md5hex (serializeHash values)

/-- Path separator character. -/
def slashChar : Char := '/'

/-- Path separator string. -/
def slashStr : String := "/"

/-- Test `s.startswith('/')`. -/
def startsWithSlash (s : String) : Bool :=
  match s.data with
  | [] => false
  | c :: _ => c == slashChar

/-- Test `s.endswith('/')`. -/
def endsWithSlash (s : String) : Bool :=
  match s.data.getLast? with
  | none => false
  | some c => c == slashChar

/-- POSIX `os.path.join` on two components: an absolute second component
resets the path; otherwise a separator is inserted unless the first component
is empty or already ends with one. -/
def joinPath (a b : String) : String :=
  if startsWithSlash b then b
  else if a = "" ∨ endsWithSlash a then a ++ b
  else a ++ slashStr ++ b

/-- Embedding of the `Image.path` property.  A falsy `root` (Python
`not self.root`) yields `None`; `custom` is the ordered list of the five
style-affecting fields. -/
def imagePath (md5hex : String → String) (root templateKey textPath : String)
    (style font watermark width height : PyVal) : Option String :=
  if root = "" then none
  else
    let base := joinPath (joinPath root templateKey) textPath
    let custom := [style, font, watermark, width, height]
    if custom.any pyTruthy then
      some (base ++ hashMark ++ imageHash md5hex custom ++ imgExt)
    else some (base ++ imgExt)

/-- Stand-in digest function (the identity) used to instantiate the external
`md5hex` parameter in concrete witnesses; the theorems hold for every digest
function. -/
def fakeDigest (s : String) : String := s

/-- Mode literal `'RGB'`. -/
def rgbMode : String := "RGB"

/-- Mode literal `'RGBA'`. -/
def rgbaMode : String := "RGBA"

/-- Format literal `'PNG'`. -/
def pngFmt : String := "PNG"

/-- Format literal `'JPEG'`. -/
def jpegFmt : String := "JPEG"

/-- Model of a PIL image: its size, mode and format tag.  The pixel buffer is
outside the model (owned by the external codec); images freshly produced by
PIL operations carry `format := none` (Python `None`), and the source assigns
the tag explicitly where it needs one. -/
structure PILImage where
  width : Int
  height : Int
  mode : String
  format : Option String
deriving DecidableEq

/-- PIL `resize`: the result has exactly the requested dimensions. -/
def resizeImg (img : PILImage) (dims : Int × Int) : PILImage :=
  { width := dims.1, height := dims.2, mode := img.mode, format := none }

/-- PIL `convert`: changes the mode, size unchanged. -/
def convertImg (img : PILImage) (m : String) : PILImage :=
  { img with mode := m, format := none }

/-- Assignment `image.format = ...`. -/
def setFormat (img : PILImage) (f : String) : PILImage := { img with format := some f }

/-- PIL `Image.new('RGB', dims)`. -/
def newImgRGB (w h : Int) : PILImage :=
  { width := w, height := h, mode := rgbMode, format := none }

/-- PIL `paste`: draws the second image onto the first in place; only pixels
change, so the modeled state of the first image is returned unchanged. -/
def pasteImg (img other : PILImage) : PILImage := img

/-- PIL `point` (the per-pixel darkening): same size and mode, fresh image. -/
def pointImg (img : PILImage) : PILImage := { img with format := none }

/-- PIL `filter` (the Gaussian blur): same size and mode, fresh image. -/
def blurImg (img : PILImage) : PILImage := { img with format := none }

/-- Lines 74-80 of `_generate`: a background whose mode is neither RGB nor
RGBA is converted — JPEG sources to RGB keeping the JPEG tag, everything else
to RGBA with a PNG tag. -/
def convertBackground (bg : PILImage) : PILImage :=
  if bg.mode ≠ rgbMode ∧ bg.mode ≠ rgbaMode then
    if bg.format = some jpegFmt then setFormat (convertImg bg rgbMode) jpegFmt
    else setFormat (convertImg bg rgbaMode) pngFmt
  else bg

/-- Truthiness of the optional `width`/`height` arguments: `None` and `0` are
falsy. -/
def pyTruthyOptInt : Option Int → Bool
  | none => false
  | some n => n != 0

/-- The integer carried by a truthy optional dimension. -/
def optVal (w : Option Int) : Int := w.getD 0

/-- The dimension computation of `_generate` (lines 83-94).  Python computes
`ratio = w0 / h0` in floating point and truncates with `int()`; this is
modeled exactly over the rationals, cross-multiplied into integer arithmetic
(equivalent for `h0 > 0`, which holds for every image PIL can produce), with
`Int.tdiv` as truncation toward zero.  A branch that divides by a zero
`ratio` (that is, `w0 = 0`) raises `ZeroDivisionError`, modeled as `none`. -/
def computeDims (w0 h0 : Int) (width height : Option Int) : Option (Int × Int) :=
  if pyTruthyOptInt width && pyTruthyOptInt height then
    if optVal width * h0 < optVal height * w0 then
      if w0 = 0 then none else some (optVal width, Int.tdiv (optVal width * h0) w0)
    else some (Int.tdiv (optVal height * w0) h0, optVal height)
  else if pyTruthyOptInt width then
    if w0 = 0 then none else some (optVal width, Int.tdiv (optVal width * h0) w0)
  else if pyTruthyOptInt height then
    some (Int.tdiv (optVal height * w0) h0, optVal height)
  else
    if w0 = 0 then none else some (600, Int.tdiv (600 * h0) w0)

/-- Lines 190-214, `_add_blurred_background`: a bordered copy of the
foreground is pasted centered onto a darkened, blurred resize of the original
background to the exact requested dimensions. -/
def addBlurredBackground (foreground background : PILImage) (width height : Int) :
    PILImage :=
  let borderWidth := min width (foreground.width + 2)
  let borderHeight := min height (foreground.height + 2)
  let border := pasteImg (newImgRGB borderWidth borderHeight) foreground
  let padded := resizeImg background (width, height)
  let darkened := pointImg padded
  let blurred := setFormat (blurImg darkened) pngFmt
  pasteImg blurred border

/-- Embedding of `_generate`.  Text drawing (`_draw_outlined_text`, the
watermark stamp) mutates pixels only, so it leaves the modeled state
unchanged; the two `_optimize_font_size` calls are retained for fidelity.
`ratio = w/h` raises `ZeroDivisionError` on a zero-height background
(`none`). -/
def generateImg (measure : Int → String → Int × Int) (top bottom : String)
    (background : PILImage) (width height : Option Int) (watermark : String) :
    Option PILImage :=
  if background.height = 0 then none
  else
    let bg := convertBackground background
    match computeDims bg.width bg.height width height with
    | none => none
    | some dims =>
      let image := setFormat (resizeImg bg dims) pngFmt
      let maxFontSize := Int.tdiv image.height 5
      let minFontSize := Int.tdiv image.height 12
      let maxTextLen := image.width - 20
      let _topLayout := optimizeFontSize measure top maxFontSize minFontSize maxTextLen
      let _bottomLayout :=
        optimizeFontSize measure bottom maxFontSize minFontSize maxTextLen
      let image2 :=
        if pyTruthyOptInt width && pyTruthyOptInt height then
          addBlurredBackground image bg (optVal width) (optVal height)
        else image
      some image2

/-- Concrete opaque JPEG background (400×300), for counterexamples. -/
def bgJpeg : PILImage :=
  { width := 400, height := 300, mode := rgbMode, format := some jpegFmt }

/-- Concrete 400×250 PNG background, for counterexamples. -/
def bgWide : PILImage :=
  { width := 400, height := 250, mode := rgbMode, format := some pngFmt }

/-! ### Lemmas about `_split` -/

lemma getD_eq_getElem (l : List Char) (i : Nat) (d : Char) (h : i < l.length) :
    l.getD i d = l[i] := by
  simp [List.getD, List.getElem?_eq_getElem h]

lemma mem_spaceIndices {text : List Char} {i : Nat} :
    i ∈ spaceIndices text ↔ i < text.length ∧ text.getD i defCh = spaceChar := by
  simp [spaceIndices, isSpaceAt, List.mem_filter]

lemma spaceIndices_pairwise (text : List Char) :
    (spaceIndices text).Pairwise (· < ·) :=
  (List.pairwise_lt_range text.length).filter (isSpaceAt text)

lemma interior_space_iff {text : List Char} :
    spaceChar ∈ (text.drop 1).dropLast ↔
      ∃ k, 1 ≤ k ∧ k + 1 < text.length ∧ text.getD k defCh = spaceChar := by
  constructor
  · intro h
    obtain ⟨i, hi, hget⟩ := List.mem_iff_getElem.mp h
    have hlen : i < text.length - 1 - 1 := by
      simpa [List.length_dropLast, List.length_drop] using hi
    refine ⟨1 + i, by omega, by omega, ?_⟩
    rw [getD_eq_getElem _ _ _ (by omega)]
    rw [List.getElem_dropLast] at hget
    rw [List.getElem_drop] at hget
    exact hget
  · rintro ⟨k, hk1, hk2, hget⟩
    obtain ⟨i, rfl⟩ : ∃ i, k = 1 + i := ⟨k - 1, by omega⟩
    apply List.mem_iff_getElem.mpr
    refine ⟨i, by simp [List.length_dropLast, List.length_drop]; omega, ?_⟩
    rw [List.getElem_dropLast, List.getElem_drop]
    rw [getD_eq_getElem _ _ _ (by omega)] at hget
    exact hget

lemma foldl_min_le_init (xs : List Nat) (a : Nat) : xs.foldl min a ≤ a := by
  induction xs generalizing a with
  | nil => exact Nat.le_refl a
  | cons x xs ih => exact Nat.le_trans (ih (min a x)) (Nat.min_le_left a x)

lemma foldl_min_le_mem {xs : List Nat} {x : Nat} (h : x ∈ xs) (a : Nat) :
    xs.foldl min a ≤ x := by
  induction xs generalizing a with
  | nil => exact absurd h (List.not_mem_nil x)
  | cons y ys ih =>
    rcases List.mem_cons.mp h with rfl | hmem
    · exact Nat.le_trans (foldl_min_le_init ys (min a x)) (Nat.min_le_right a x)
    · exact ih hmem (min a y)

lemma foldl_min_mem_or (xs : List Nat) (a : Nat) :
    xs.foldl min a = a ∨ xs.foldl min a ∈ xs := by
  induction xs generalizing a with
  | nil => exact Or.inl rfl
  | cons x xs ih =>
    rcases ih (min a x) with h | h
    · rcases Nat.le_total a x with hax | hxa
      · exact Or.inl (by rw [List.foldl_cons, h, Nat.min_eq_left hax])
      · exact Or.inr (by
          rw [List.foldl_cons, h, Nat.min_eq_right hxa]
          exact List.mem_cons_self x xs)
    · exact Or.inr (List.mem_cons_of_mem x h)

lemma pyMin_le {l : List Nat} {x : Nat} (h : x ∈ l) : pyMin l ≤ x := by
  cases l with
  | nil => exact absurd h (List.not_mem_nil x)
  | cons y ys =>
    rcases List.mem_cons.mp h with rfl | hmem
    · exact foldl_min_le_init ys x
    · exact foldl_min_le_mem hmem y

lemma pyMin_mem {l : List Nat} (h : l ≠ []) : pyMin l ∈ l := by
  cases l with
  | nil => exact absurd rfl h
  | cons y ys =>
    rcases foldl_min_mem_or ys y with hm | hm
    · show List.foldl min y ys ∈ y :: ys
      rw [hm]
      exact List.mem_cons_self y ys
    · exact List.mem_cons_of_mem y hm

lemma find?_exists {l : List Nat} {p : Nat → Bool} (h : ∃ a ∈ l, p a = true) :
    ∃ j, l.find? p = some j := by
  induction l with
  | nil => simp at h
  | cons x xs ih =>
    by_cases hx : p x = true
    · exact ⟨x, List.find?_cons_of_pos xs hx⟩
    · obtain ⟨a, ha, hpa⟩ := h
      rcases List.mem_cons.mp ha with rfl | hmem
      · exact absurd hpa hx
      · obtain ⟨j, hj⟩ := ih ⟨a, hmem, hpa⟩
        exact ⟨j, by rw [List.find?_cons_of_neg xs hx]; exact hj⟩

lemma find?_first_sorted {l : List Nat} {p : Nat → Bool}
    (hs : l.Pairwise (· < ·)) {j : Nat} (hfind : l.find? p = some j) :
    ∀ k ∈ l, p k = true → j ≤ k := by
  induction l with
  | nil => simp at hfind
  | cons x xs ih =>
    intro k hk hpk
    obtain ⟨hxall, hxs⟩ := List.pairwise_cons.mp hs
    by_cases hx : p x = true
    · rw [List.find?_cons_of_pos xs hx] at hfind
      injection hfind with hj
      subst hj
      rcases List.mem_cons.mp hk with rfl | hmem
      · exact Nat.le_refl k
      · exact Nat.le_of_lt (hxall k hmem)
    · rw [List.find?_cons_of_neg xs hx] at hfind
      rcases List.mem_cons.mp hk with rfl | hmem
      · exact absurd hpk hx
      · exact ih hxs hfind k hmem hpk

lemma prox_lt_prox_zero {L k : Nat} (h3 : 3 ≤ L) (h1 : 1 ≤ k) (h2 : k + 1 < L) :
    prox L k < prox L 0 := by
  unfold prox; omega

lemma prox_le_prox_last {L k : Nat} (h3 : 3 ≤ L) (h1 : 1 ≤ k) (h2 : k + 1 < L) :
    prox L k ≤ prox L (L - 1) := by
  unfold prox; omega

/-- Main characterization of the split index chosen by `_split` when the
guard holds: it is a space, it is interior, its midpoint proximity is minimal
among all spaces, ties go to the lowest index, and `_split` cuts there. -/
lemma split_choice (text : List Char) (hlen : 3 ≤ text.length)
    {k0 : Nat} (hk01 : 1 ≤ k0) (hk02 : k0 + 1 < text.length)
    (hk03 : text.getD k0 defCh = spaceChar) :
    ∃ j, (1 ≤ j ∧ j + 1 < text.length ∧ text.getD j defCh = spaceChar) ∧
      (∀ k, k < text.length → text.getD k defCh = spaceChar →
        prox text.length j ≤ prox text.length k) ∧
      (∀ k, k < text.length → text.getD k defCh = spaceChar →
        prox text.length k = prox text.length j → j ≤ k) ∧
      splitPy text = [text.take j, text.drop (j + 1)] := by
  have hk0mem : k0 ∈ spaceIndices text := mem_spaceIndices.mpr ⟨by omega, hk03⟩
  have hne : spaceIndices text ≠ [] := List.ne_nil_of_mem hk0mem
  have hmapne : (spaceIndices text).map (prox text.length) ≠ [] := by
    simpa using hne
  have hmmem := pyMin_mem hmapne
  obtain ⟨jm, hjm_mem, hjm_eq⟩ := List.mem_map.mp hmmem
  have hmin : ∀ k ∈ spaceIndices text, minProx text ≤ prox text.length k :=
    fun k hk => pyMin_le (List.mem_map_of_mem (prox text.length) hk)
  have hpjm : (prox text.length jm == minProx text) = true := by
    rw [beq_iff_eq]; exact hjm_eq
  obtain ⟨j, hfind⟩ :=
    find?_exists (p := fun j => prox text.length j == minProx text)
      ⟨jm, hjm_mem, hpjm⟩
  have hpj : prox text.length j = minProx text := by
    have := List.find?_some hfind
    simpa using this
  have hjmem := List.mem_of_find?_eq_some hfind
  obtain ⟨hjlt, hjsp⟩ := mem_spaceIndices.mp hjmem
  have hfirst : ∀ k ∈ spaceIndices text, prox text.length k = minProx text → j ≤ k := by
    intro k hk hpk
    exact find?_first_sorted (spaceIndices_pairwise text) hfind k hk (by
      rw [beq_iff_eq]; exact hpk)
  have hj1 : 1 ≤ j := by
    by_contra hj0
    have hj0' : j = 0 := by omega
    subst hj0'
    have h1 := hmin k0 hk0mem
    have h2 := prox_lt_prox_zero hlen hk01 hk02
    omega
  have hj2 : j + 1 < text.length := by
    by_contra hjlast
    have hj' : j = text.length - 1 := by omega
    have h1 := hmin k0 hk0mem
    have h2 := prox_le_prox_last hlen hk01 hk02
    rw [hj'] at hpj
    have hk0m : prox text.length k0 = minProx text := by omega
    have := hfirst k0 hk0mem hk0m
    omega
  refine ⟨j, ⟨hj1, hj2, hjsp⟩, ?_, ?_, ?_⟩
  · intro k hk hksp
    have := hmin k (mem_spaceIndices.mpr ⟨hk, hksp⟩)
    omega
  · intro k hk hksp hkprox
    exact hfirst k (mem_spaceIndices.mpr ⟨hk, hksp⟩) (by omega)
  · rw [splitPy, if_pos ⟨hlen, interior_space_iff.mpr ⟨k0, hk01, hk02, hk03⟩⟩, hfind]

/-! ### Lemmas about `_maximize_font_size` and `_optimize_font_size` -/

lemma maximizeGo_zero (measure : Int → String → Int × Int) (t : String)
    (M fs : Int) : maximizeGo measure t M 0 fs = fs := rfl

lemma maximizeGo_succ (measure : Int → String → Int × Int) (t : String)
    (M : Int) (fuel : Nat) (fs : Int) :
    maximizeGo measure t M (fuel + 1) fs =
      if (measure fs t).1 > M ∧ fs > 1 then maximizeGo measure t M fuel (fs - 1)
      else fs := rfl

lemma maximizeGo_le (measure : Int → String → Int × Int) (t : String) (M : Int) :
    ∀ (fuel : Nat) (fs : Int), maximizeGo measure t M fuel fs ≤ fs := by
  intro fuel
  induction fuel with
  | zero => intro fs; exact le_of_eq (maximizeGo_zero measure t M fs)
  | succ n ih =>
    intro fs
    rw [maximizeGo_succ]
    by_cases hc : (measure fs t).1 > M ∧ fs > 1
    · rw [if_pos hc]
      have := ih (fs - 1)
      omega
    · rw [if_neg hc]

lemma maximizeGo_ge_one (measure : Int → String → Int × Int) (t : String) (M : Int) :
    ∀ (fuel : Nat) (fs : Int), 1 ≤ fs → 1 ≤ maximizeGo measure t M fuel fs := by
  intro fuel
  induction fuel with
  | zero => intro fs h; rw [maximizeGo_zero]; exact h
  | succ n ih =>
    intro fs h
    rw [maximizeGo_succ]
    by_cases hc : (measure fs t).1 > M ∧ fs > 1
    · rw [if_pos hc]; exact ih (fs - 1) (by omega)
    · rw [if_neg hc]; exact h

lemma maximizeGo_mono (measure : Int → String → Int × Int) (t : String)
    {M1 M2 : Int} (hM : M1 ≤ M2) :
    ∀ (fuel2 fuel1 : Nat) (fs1 fs2 : Int), fs1 ≤ fs2 →
      fs1.toNat - 1 ≤ fuel1 → fs2.toNat - 1 ≤ fuel2 →
      maximizeGo measure t M1 fuel1 fs1 ≤ maximizeGo measure t M2 fuel2 fs2 := by
  intro fuel2
  induction fuel2 with
  | zero =>
    intro fuel1 fs1 fs2 h12 _ had2
    rw [maximizeGo_zero]
    exact le_trans (maximizeGo_le measure t M1 fuel1 fs1) h12
  | succ n ih =>
    intro fuel1 fs1 fs2 h12 had1 had2
    rw [maximizeGo_succ]
    by_cases hc : (measure fs2 t).1 > M2 ∧ fs2 > 1
    · rw [if_pos hc]
      by_cases h1eq : fs1 = fs2
      · subst h1eq
        have hc1 : (measure fs1 t).1 > M1 ∧ fs1 > 1 := ⟨by omega, hc.2⟩
        obtain ⟨m, rfl⟩ : ∃ m, fuel1 = m + 1 := ⟨fuel1 - 1, by omega⟩
        rw [maximizeGo_succ, if_pos hc1]
        exact ih m (fs1 - 1) (fs1 - 1) (le_refl _) (by omega) (by omega)
      · exact ih fuel1 fs1 (fs2 - 1) (by omega) had1 (by omega)
    · rw [if_neg hc]
      exact le_trans (maximizeGo_le measure t M1 fuel1 fs1) h12

lemma maximizeFontSize_ge_one (measure : Int → String → Int × Int) (t : String)
    {M : Int} (h : 1 ≤ M) : 1 ≤ maximizeFontSize measure t M :=
  maximizeGo_ge_one measure t M M.toNat M h

lemma maximizeFontSize_mono (measure : Int → String → Int × Int) (t : String)
    {M1 M2 : Int} (h : M1 ≤ M2) :
    maximizeFontSize measure t M1 ≤ maximizeFontSize measure t M2 :=
  maximizeGo_mono measure t h M2.toNat M1.toNat M1 M2 h (by omega) (by omega)

lemma foldl_min_maximize_ge_one (measure : Int → String → Int × Int)
    {maxLen : Int} (h : 1 ≤ maxLen) (l : List String) :
    ∀ a : Int, 1 ≤ a →
      1 ≤ l.foldl (fun fs p => min (maximizeFontSize measure p maxLen) fs) a := by
  induction l with
  | nil => intro a ha; exact ha
  | cons x xs ih =>
    intro a ha
    rw [List.foldl_cons]
    exact ih _ (le_min (maximizeFontSize_ge_one measure x h) ha)

lemma foldl_min_mono (f g : String → Int) (hfg : ∀ p, f p ≤ g p) (l : List String) :
    ∀ a b : Int, a ≤ b →
      l.foldl (fun fs p => min (f p) fs) a ≤ l.foldl (fun fs p => min (g p) fs) b := by
  induction l with
  | nil => intro a b hab; exact hab
  | cons x xs ih =>
    intro a b hab
    rw [List.foldl_cons, List.foldl_cons]
    exact ih _ _ (min_le_min (hfg x) hab)

lemma splitPy_length (text : List Char) :
    (splitPy text).length = 1 ∨ (splitPy text).length = 2 := by
  rw [splitPy]
  split
  · split
    · exact Or.inr rfl
    · exact Or.inl rfl
  · exact Or.inl rfl

lemma splitStr_length (s : String) :
    (splitStr s).length = 1 ∨ (splitStr s).length = 2 := by
  rw [splitStr, List.length_map]
  exact splitPy_length s.data

lemma fdiv_ge_one_of_len12 (x : Int) (hx : 2 ≤ x) {n : Nat} (hn : n = 1 ∨ n = 2) :
    1 ≤ x.fdiv (n : Int) := by
  rcases hn with rfl | rfl
  · rw [show ((1 : Nat) : Int) = 1 from rfl, Int.fdiv_one]; omega
  · rw [show ((2 : Nat) : Int) = 2 from rfl, Int.fdiv_eq_ediv _ (by omega)]; omega

/-! ### Lemmas about `_generate` -/

lemma convertBackground_width (bg : PILImage) :
    (convertBackground bg).width = bg.width := by
  unfold convertBackground
  split
  · split <;> rfl
  · rfl

lemma convertBackground_height (bg : PILImage) :
    (convertBackground bg).height = bg.height := by
  unfold convertBackground
  split
  · split <;> rfl
  · rfl

lemma computeDims_isSome {w0 : Int} (hw : 0 < w0) (h0 : Int)
    (width height : Option Int) :
    ∃ d, computeDims w0 h0 width height = some d := by
  unfold computeDims
  repeat' split
  all_goals first | exact ⟨_, rfl⟩ | omega

lemma pyTruthyOptInt_pos {n : Int} (h : 0 < n) : pyTruthyOptInt (some n) = true := by
  simp [pyTruthyOptInt]
  omega

end Memegen

namespace Memegen

/-- C1: for every string of length at least 3 with an interior space (a space
at an index other than the first or last character), `_split` returns exactly
two non-empty strings whose concatenation with a single space between them
reconstructs the original string.  Texts are their character sequences
(`List Char`), mirroring Python `str`. -/
theorem split_two_nonempty_halves (text : List Char) (h3 : 3 ≤ text.length)
    (hsp : spaceChar ∈ (text.drop 1).dropLast) :
    ∃ a b, splitPy text = [a, b] ∧ a ≠ [] ∧ b ≠ [] ∧ a ++ spaceChar :: b = text := by
  obtain ⟨k0, hk01, hk02, hk03⟩ := interior_space_iff.mp hsp
  obtain ⟨j, ⟨hj1, hj2, hjsp⟩, _, _, hsplit⟩ := split_choice text h3 hk01 hk02 hk03
  refine ⟨text.take j, text.drop (j + 1), hsplit, ?_, ?_, ?_⟩
  · apply List.ne_nil_of_length_pos
    rw [List.length_take]
    omega
  · apply List.ne_nil_of_length_pos
    rw [List.length_drop]
    omega
  · have hj : j < text.length := by omega
    have hgd : text[j] = spaceChar := by
      rw [← getD_eq_getElem text j defCh hj]
      exact hjsp
    calc text.take j ++ spaceChar :: text.drop (j + 1)
        = text.take j ++ text[j] :: text.drop (j + 1) := by rw [hgd]
      _ = text.take j ++ text.drop j := by rw [List.getElem_cons_drop text j hj]
      _ = text := List.take_append_drop j text

/-- Witness for `split_two_nonempty_halves` at the doctest input
`"Hello, world!"`. -/
theorem split_two_nonempty_halves_witness :
    ∃ a b, splitPy (("Hello, world!").data) = [a, b] ∧ a ≠ [] ∧ b ≠ [] ∧
      a ++ spaceChar :: b = ("Hello, world!").data :=
  split_two_nonempty_halves _ (by decide) (by decide)

/-- C6: when the guard holds (length at least 3, interior space present),
`_split` cuts at a space index `j` that is interior, whose distance
`abs(j - len // 2)` to the midpoint is minimal among interior spaces, with
ties broken by the lowest index, and both the separating space is dropped
from the two halves (`take j` / `drop (j+1)`); otherwise (`length < 3` or no
interior space) it returns the original string as a single-element
sequence. -/
theorem split_midpoint :
    (∀ text : List Char, 3 ≤ text.length → spaceChar ∈ (text.drop 1).dropLast →
      ∃ j, (1 ≤ j ∧ j + 1 < text.length ∧ text.getD j defCh = spaceChar) ∧
        (∀ k, 1 ≤ k → k + 1 < text.length → text.getD k defCh = spaceChar →
          prox text.length j ≤ prox text.length k) ∧
        (∀ k, 1 ≤ k → k + 1 < text.length → text.getD k defCh = spaceChar →
          prox text.length k = prox text.length j → j ≤ k) ∧
        splitPy text = [text.take j, text.drop (j + 1)]) ∧
    (∀ text : List Char,
      (text.length < 3 ∨
        ∀ k, 1 ≤ k → k + 1 < text.length → ¬ text.getD k defCh = spaceChar) →
      splitPy text = [text]) := by
  constructor
  · intro text h3 hsp
    obtain ⟨k0, hk01, hk02, hk03⟩ := interior_space_iff.mp hsp
    obtain ⟨j, hj, hmin, htie, hsplit⟩ := split_choice text h3 hk01 hk02 hk03
    exact ⟨j, hj, fun k h1 h2 hk => hmin k (by omega) hk,
      fun k h1 h2 hk hpk => htie k (by omega) hk hpk, hsplit⟩
  · intro text h
    rw [splitPy, if_neg]
    rintro ⟨h3, hsp⟩
    obtain ⟨k, hk1, hk2, hk3⟩ := interior_space_iff.mp hsp
    rcases h with h | h
    · omega
    · exact h k hk1 hk2 hk3

/-- Witness for `split_midpoint`: the splittable input `"ab cd"` and the
too-short input `"Hi"`. -/
theorem split_midpoint_witness :
    (∃ j, (1 ≤ j ∧ j + 1 < (("ab cd").data).length ∧
        (("ab cd").data).getD j defCh = spaceChar) ∧
      (∀ k, 1 ≤ k → k + 1 < (("ab cd").data).length →
        (("ab cd").data).getD k defCh = spaceChar →
        prox (("ab cd").data).length j ≤ prox (("ab cd").data).length k) ∧
      (∀ k, 1 ≤ k → k + 1 < (("ab cd").data).length →
        (("ab cd").data).getD k defCh = spaceChar →
        prox (("ab cd").data).length k = prox (("ab cd").data).length j → j ≤ k) ∧
      splitPy (("ab cd").data) =
        [(("ab cd").data).take j, (("ab cd").data).drop (j + 1)]) ∧
    splitPy (("Hi").data) = [("Hi").data] :=
  ⟨(split_midpoint).1 _ (by decide) (by decide),
   (split_midpoint).2 _ (Or.inl (by decide))⟩

/-- C3 counterexample: with `maxFontSize = 0` (and the linear font model,
empty text, `minSingleLineFontSize = 5`, `maxTextWidthPx = 10`) the candidate
size is `0 // 1 = 0` and `min` with the search result keeps `0`, so
`_optimize_font_size` returns a font size below 1: the claimed clamp to `≥ 1`
does not hold for every input. -/
theorem optimize_zero_max_counterexample :
    (optimizeFontSize measureLin ("") 0 5 10).1 = 0 ∧
      ¬ (1 ≤ (optimizeFontSize measureLin ("") 0 5 10).1) := by decide

/-- C3 amended: the font size returned by `_optimize_font_size` is at least 1
provided `maxFontSize ≥ 2` and `maxTextWidthPx ≥ 1` (as in the real pipeline,
where `maxFontSize = height // 5` and `maxTextWidthPx = width - 20` for any
non-degenerate image); the code performs no clamp beyond the `font_size > 1`
loop guard, so degenerate parameters can yield sizes below 1. -/
theorem optimize_font_size_ge_one (measure : Int → String → Int × Int)
    (text : String) (maxFontSize minFontSize maxTextLen : Int)
    (hmax : 2 ≤ maxFontSize) (hlen : 1 ≤ maxTextLen) :
    1 ≤ (optimizeFontSize measure text maxFontSize minFontSize maxTextLen).1 := by
  simp only [optimizeFontSize]
  by_cases htw : (measure minFontSize text).1 > maxTextLen
  · rw [if_pos htw]
    apply foldl_min_maximize_ge_one measure hlen
    exact fdiv_ge_one_of_len12 _ hmax (splitStr_length text)
  · rw [if_neg htw]
    apply foldl_min_maximize_ge_one measure hlen
    exact fdiv_ge_one_of_len12 _ hmax (Or.inl rfl)

/-- Witness for `optimize_font_size_ge_one`. -/
theorem optimize_font_size_ge_one_witness :
    1 ≤ (optimizeFontSize measureLin ("hi there") 10 2 30).1 :=
  optimize_font_size_ge_one measureLin ("hi there") 10 2 30 (by decide) (by decide)

/-- C7 counterexample: for empty text with `maxFontSize = 100` and
`maxTextWidthPx = 50` (and the linear font model, under which the empty
string measures 0 wide at every size), `_optimize_font_size` returns 50, not
the candidate `maxFontSize // 1 = 100`: `_maximize_font_size` is still
invoked on the empty phrase and starts its search at `max_text_len`, capping
the result. -/
theorem optimize_empty_text_counterexample :
    (optimizeFontSize measureLin ("") 100 10 50).1 = 50 ∧
      (optimizeFontSize measureLin ("") 100 10 50).1 ≠ 100 := by decide

/-- C7 amended: for empty text (measured 0 wide at every size, as under any
font) and `maxTextWidthPx ≥ 0`, `_optimize_font_size` performs no downward
search but returns `min(maxTextWidthPx, maxFontSize)`, not `maxFontSize`:
the empty phrase is still passed to `_maximize_font_size`, whose search
starts at (and immediately returns) `max_text_len`. -/
theorem optimize_empty_text (measure : Int → String → Int × Int)
    (maxFontSize minFontSize maxTextLen : Int)
    (hE : ∀ s : Int, (measure s ("")).1 = 0) (hL : 0 ≤ maxTextLen) :
    optimizeFontSize measure ("") maxFontSize minFontSize maxTextLen =
      (min maxTextLen maxFontSize, ("")) := by
  simp only [optimizeFontSize]
  rw [if_neg (by rw [hE minFontSize]; omega)]
  have hmax : maximizeFontSize measure ("") maxTextLen = maxTextLen := by
    unfold maximizeFontSize
    cases hm : maxTextLen.toNat with
    | zero => rw [maximizeGo_zero]
    | succ m =>
      rw [maximizeGo_succ, if_neg]
      rintro ⟨hgt, _⟩
      rw [hE maxTextLen] at hgt
      omega
  rw [List.foldl_cons, List.foldl_nil, hmax]
  have hone : Int.fdiv maxFontSize (([("")].length : Nat) : Int) = maxFontSize := by
    rw [show (([("")].length : Nat) : Int) = 1 from rfl, Int.fdiv_one]
  rw [hone]
  rfl

/-- Witness for `optimize_empty_text`, with the zero-width font model. -/
theorem optimize_empty_text_witness :
    optimizeFontSize measureZero ("") 100 10 50 = (min (50 : Int) 100, ("")) :=
  optimize_empty_text measureZero 100 10 50 (fun s => rfl) (by decide)

/-- C8 counterexample: with the linear font model (whose measured width
`size * len(text)` is monotone in the font size), text `"ab cd"`,
`maxFontSize = 100` and `minSingleLineFontSize = 10`, widening
`maxTextWidthPx` from 30 to 50 makes the returned font size drop from 15 to
10: at width 30 the text splits into two short lines, at width 50 it stays a
single long line that fits only at size 10, so the claimed monotonicity in
`maxTextWidthPx` fails across the split boundary. -/
theorem optimize_monotone_counterexample :
    (30 : Int) ≤ 50 ∧
      (optimizeFontSize measureLin ("ab cd") 100 10 30).1 = 15 ∧
      (optimizeFontSize measureLin ("ab cd") 100 10 50).1 = 10 ∧
      ¬ ((optimizeFontSize measureLin ("ab cd") 100 10 30).1 ≤
          (optimizeFontSize measureLin ("ab cd") 100 10 50).1) := by decide

/-- C8 amended: the returned font size is monotone non-decreasing in
`maxTextWidthPx` (for any font model) provided the one-line/two-line decision
is the same at both widths, i.e. the text's measured width at
`minSingleLineFontSize` does not separate them; across the split boundary it
can decrease (see the counterexample). -/
theorem optimize_monotone_same_regime (measure : Int → String → Int × Int)
    (text : String) (maxFontSize minFontSize : Int) (w1 w2 : Int) (h12 : w1 ≤ w2)
    (hreg : (measure minFontSize text).1 ≤ w1 ∨ w2 < (measure minFontSize text).1) :
    (optimizeFontSize measure text maxFontSize minFontSize w1).1 ≤
      (optimizeFontSize measure text maxFontSize minFontSize w2).1 := by
  simp only [optimizeFontSize]
  have hphr : (if (measure minFontSize text).1 > w2 then splitStr text else [text]) =
      (if (measure minFontSize text).1 > w1 then splitStr text else [text]) := by
    rcases hreg with h | h
    · rw [if_neg (by omega), if_neg (by omega)]
    · rw [if_pos (by omega), if_pos (by omega)]
  rw [hphr]
  exact foldl_min_mono _ _
    (fun p => maximizeFontSize_mono measure p h12) _ _ _ (le_refl _)

/-- Witness for `optimize_monotone_same_regime`: both widths 30 and 40 are in
the two-line regime for `"ab cd"` at `minSingleLineFontSize = 10`. -/
theorem optimize_monotone_same_regime_witness :
    (optimizeFontSize measureLin ("ab cd") 100 10 30).1 ≤
      (optimizeFontSize measureLin ("ab cd") 100 10 40).1 :=
  optimize_monotone_same_regime measureLin ("ab cd") 100 10 30 40 (by decide)
    (Or.inr (by decide))

/-- Appending `".img"` never equals appending `"#" ++ digest ++ ".img"` to the
same base, whatever the digest string. -/
lemma append_img_ne (base d : String) :
    base ++ imgExt ≠ base ++ hashMark ++ d ++ imgExt := by
  intro h
  have hlen := congrArg String.length h
  rw [String.length_append, String.length_append, String.length_append,
    String.length_append] at hlen
  have h4 : imgExt.length = 4 := rfl
  have h1 : hashMark.length = 1 := rfl
  omega

/-- C2: with a non-empty root, `Image.path` is the joined base path
`root/templateKey/textPath` plus `".img"`, with no `#` suffix, exactly when
every style-affecting field (`style`, `font`, `watermark`, `width`, `height`)
is falsy (absent/default); otherwise it is the base path followed by `#`, the
digest of the ordered fields serialized as `index:value` (falsy fields
serialize with their index and an empty value — see `serializeHash`), and
`".img"`.  `md5hex` is the external digest function. -/
theorem image_path_variant_key (md5hex : String → String)
    (root templateKey textPath : String)
    (style font watermark width height : PyVal) (hroot : root ≠ "") :
    (imagePath md5hex root templateKey textPath style font watermark width height =
        some (joinPath (joinPath root templateKey) textPath ++ imgExt) ↔
      (pyTruthy style = false ∧ pyTruthy font = false ∧ pyTruthy watermark = false ∧
        pyTruthy width = false ∧ pyTruthy height = false)) ∧
    ((pyTruthy style = true ∨ pyTruthy font = true ∨ pyTruthy watermark = true ∨
        pyTruthy width = true ∨ pyTruthy height = true) →
      imagePath md5hex root templateKey textPath style font watermark width height =
        some (joinPath (joinPath root templateKey) textPath ++ hashMark ++
          imageHash md5hex [style, font, watermark, width, height] ++ imgExt)) := by
  rw [imagePath, if_neg hroot]
  by_cases hb : ([style, font, watermark, width, height].any pyTruthy) = true
  · rw [if_pos hb]
    have hb' : pyTruthy style = true ∨ pyTruthy font = true ∨
        pyTruthy watermark = true ∨ pyTruthy width = true ∨
        pyTruthy height = true := by
      simpa [List.any_cons, List.any_nil, Bool.or_eq_true] using hb
    constructor
    · constructor
      · intro heq
        exact absurd (Option.some.inj heq).symm (append_img_ne _ _)
      · rintro ⟨h1, h2, h3, h4, h5⟩
        rcases hb' with h | h | h | h | h <;> simp_all
    · intro _
      rfl
  · rw [if_neg hb]
    have hall : pyTruthy style = false ∧ pyTruthy font = false ∧
        pyTruthy watermark = false ∧ pyTruthy width = false ∧
        pyTruthy height = false := by
      simpa [List.any_cons, List.any_nil, Bool.or_eq_true, not_or,
        Bool.not_eq_true] using hb
    exact ⟨⟨fun _ => hall, fun _ => rfl⟩, by
      rintro (h | h | h | h | h) <;> simp_all⟩

/-- Witness for `image_path_variant_key` with the stand-in digest, root
`"cache"`, a truthy `style` and falsy remaining fields. -/
theorem image_path_variant_key_witness :
    imagePath fakeDigest ("cache") ("t") ("p") (PyVal.vStr ("alt")) PyVal.vNone
        (PyVal.vStr ("")) PyVal.vNone PyVal.vNone =
      some (joinPath (joinPath ("cache") ("t")) ("p") ++ hashMark ++
        imageHash fakeDigest [PyVal.vStr ("alt"), PyVal.vNone, PyVal.vStr (""),
          PyVal.vNone, PyVal.vNone] ++ imgExt) :=
  (image_path_variant_key fakeDigest ("cache") ("t") ("p") (PyVal.vStr ("alt"))
    PyVal.vNone (PyVal.vStr ("")) PyVal.vNone PyVal.vNone (by decide)).2
    (Or.inl (by decide))

/-- The serialized field stream depends only on `orEmpty` of the fields,
pointwise, at any starting index. -/
lemma serialize_from {vs ws : List PyVal}
    (h : List.Forall₂ (fun a b => orEmpty a = orEmpty b) vs ws) :
    ∀ n : Nat,
      (vs.enumFrom n).map (fun p => toString p.1 ++ colonStr ++ orEmpty p.2) =
        (ws.enumFrom n).map (fun p => toString p.1 ++ colonStr ++ orEmpty p.2) := by
  induction h with
  | nil => intro n; rfl
  | @cons a b as bs hab htail ih =>
    intro n
    simp only [List.enumFrom, List.map_cons]
    rw [show orEmpty a = orEmpty b from hab, ih (n + 1)]

/-- `Image.hash` depends only on `orEmpty` of the fields. -/
lemma imageHash_congr (md5hex : String → String) {vs ws : List PyVal}
    (h : List.Forall₂ (fun a b => orEmpty a = orEmpty b) vs ws) :
    imageHash md5hex vs = imageHash md5hex ws := by
  unfold imageHash serializeHash
  rw [show vs.enum = vs.enumFrom 0 from rfl, show ws.enum = ws.enumFrom 0 from rfl,
    serialize_from h 0]

/-- C10: `Image.hash` depends only on the elementwise value of
`value or ""` over the ordered field list — two equally long field lists that
agree after mapping every falsy value (`None`, `""`, `0`, `False`) to the
empty string receive equal digests (for every digest function) — and in
particular a request with `style = None` and one with `style = ""`, all other
fields equal, receive the same path. -/
theorem hash_depends_only_on_or_empty :
    (∀ (md5hex : String → String) (vs ws : List PyVal),
      List.Forall₂ (fun a b => orEmpty a = orEmpty b) vs ws →
      imageHash md5hex vs = imageHash md5hex ws) ∧
    (∀ (md5hex : String → String) (root templateKey textPath : String)
      (font watermark width height : PyVal),
      imagePath md5hex root templateKey textPath PyVal.vNone font watermark
          width height =
        imagePath md5hex root templateKey textPath (PyVal.vStr ("")) font
          watermark width height) := by
  constructor
  · intro md5hex vs ws h
    exact imageHash_congr md5hex h
  · intro md5hex root templateKey textPath font watermark width height
    simp only [imagePath]
    by_cases hroot : root = ""
    · rw [if_pos hroot, if_pos hroot]
    · rw [if_neg hroot, if_neg hroot]
      have hany : ([PyVal.vNone, font, watermark, width, height].any pyTruthy) =
          ([PyVal.vStr (""), font, watermark, width, height].any pyTruthy) := rfl
      have hhash : imageHash md5hex [PyVal.vNone, font, watermark, width, height] =
          imageHash md5hex [PyVal.vStr (""), font, watermark, width, height] :=
        imageHash_congr md5hex
          (List.Forall₂.cons rfl (List.Forall₂.cons rfl (List.Forall₂.cons rfl
            (List.Forall₂.cons rfl (List.Forall₂.cons rfl List.Forall₂.nil)))))
      rw [hany, hhash]

/-- Witness for `hash_depends_only_on_or_empty`: a `None` field and an empty
string field hash identically. -/
theorem hash_depends_only_on_or_empty_witness :
    imageHash fakeDigest [PyVal.vNone] = imageHash fakeDigest [PyVal.vStr ("")] :=
  (hash_depends_only_on_or_empty).1 fakeDigest _ _
    (List.Forall₂.cons rfl List.Forall₂.nil)

/-- C4 counterexample: rendering over the opaque JPEG background `bgJpeg`
yields an image whose format tag is `'PNG'`, not a JPEG-compatible tag: the
assignment `image.format = 'PNG'` after the resize overwrites the tag for
every background, so the rendered format is not derived from the
background's format. -/
theorem generate_format_counterexample :
    generateImg measureLin ("") ("") bgJpeg none none ("") =
      some { width := 600, height := 450, mode := rgbMode, format := some pngFmt } ∧
    pngFmt ≠ jpegFmt ∧ bgJpeg.format = some jpegFmt := by
  refine ⟨by decide, by decide, rfl⟩

/-- C4 amended: the background conversion step does tag an opaque (JPEG)
non-RGB/RGBA source as JPEG and every other non-RGB/RGBA source as PNG, but
the format tag of the image returned by `_generate` is unconditionally
`'PNG'` (assigned after the resize, and again by
`_add_blurred_background`), for every background with positive
dimensions. -/
theorem generate_format_always_png :
    (∀ bg : PILImage, bg.mode ≠ rgbMode → bg.mode ≠ rgbaMode →
      (bg.format = some jpegFmt →
        (convertBackground bg).format = some jpegFmt ∧
        (convertBackground bg).mode = rgbMode) ∧
      (bg.format ≠ some jpegFmt →
        (convertBackground bg).format = some pngFmt ∧
        (convertBackground bg).mode = rgbaMode)) ∧
    (∀ (measure : Int → String → Int × Int) (top bottom : String) (bg : PILImage)
      (width height : Option Int) (wm : String), 0 < bg.width → 0 < bg.height →
      ∃ img, generateImg measure top bottom bg width height wm = some img ∧
        img.format = some pngFmt) := by
  constructor
  · intro bg h1 h2
    constructor
    · intro hf
      unfold convertBackground
      rw [if_pos ⟨h1, h2⟩, if_pos hf]
      exact ⟨rfl, rfl⟩
    · intro hf
      unfold convertBackground
      rw [if_pos ⟨h1, h2⟩, if_neg hf]
      exact ⟨rfl, rfl⟩
  · intro measure top bottom bg width height wm hw hh
    simp only [generateImg]
    rw [if_neg (by omega)]
    split
    · next heq =>
      obtain ⟨d, hd⟩ := computeDims_isSome
        (by rw [convertBackground_width]; omega : 0 < (convertBackground bg).width)
        (convertBackground bg).height width height
      exact Option.noConfusion (hd.symm.trans heq)
    · next d heq =>
      split
      · exact ⟨_, rfl, rfl⟩
      · exact ⟨_, rfl, rfl⟩

/-- Witness for `generate_format_always_png` on a concrete PNG background. -/
theorem generate_format_always_png_witness :
    ∃ img, generateImg measureLin ("") ("") bgWide none (some 500) ("") = some img ∧
      img.format = some pngFmt :=
  (generate_format_always_png).2 measureLin ("") ("") bgWide none (some 500) ("")
    (by decide) (by decide)

/-- C5: whenever both target dimensions are given and positive, the image
returned by `_generate` has exactly those pixel dimensions, regardless of the
background's aspect ratio: `_add_blurred_background` resizes the original
background to exactly `(width, height)` and pastes the bordered foreground
onto it. -/
theorem generate_exact_dimensions (measure : Int → String → Int × Int)
    (top bottom : String) (bg : PILImage) (w h : Int) (wm : String)
    (hbgw : 0 < bg.width) (hbgh : 0 < bg.height) (hw : 0 < w) (hh : 0 < h) :
    ∃ img, generateImg measure top bottom bg (some w) (some h) wm = some img ∧
      img.width = w ∧ img.height = h := by
  simp only [generateImg]
  rw [if_neg (by omega)]
  split
  · next heq =>
    obtain ⟨d, hd⟩ := computeDims_isSome
      (by rw [convertBackground_width]; omega : 0 < (convertBackground bg).width)
      (convertBackground bg).height (some w) (some h)
    exact Option.noConfusion (hd.symm.trans heq)
  · next d heq =>
    rw [if_pos (by rw [pyTruthyOptInt_pos hw, pyTruthyOptInt_pos hh]; rfl)]
    exact ⟨_, rfl, rfl, rfl⟩

/-- Witness for `generate_exact_dimensions`: the spec's end-to-end case,
target 500×500 over a 400×300 background. -/
theorem generate_exact_dimensions_witness :
    ∃ img, generateImg measureLin ("") ("") bgJpeg (some 500) (some 500) ("") =
        some img ∧ img.width = 500 ∧ img.height = 500 :=
  generate_exact_dimensions measureLin ("") ("") bgJpeg 500 500 ("")
    (by decide) (by decide) (by decide) (by decide)

/-- C9 counterexample: a render request with target width `0` (non-positive)
does not fail with any `InvalidDimensions` error — no dimension validation
exists in `_generate` — and instead runs the full pixel pipeline to
completion, treating the falsy zero width as unspecified and producing an
800×500 image from the 400×250 background scaled to the requested height. -/
theorem generate_zero_dimension_counterexample :
    generateImg measureLin ("") ("") bgWide (some 0) (some 500) ("") =
      some { width := 800, height := 500, mode := rgbMode, format := some pngFmt } := by
  decide

/-- C9 amended: `_generate` performs no dimension validation; a target width
or height of `0` is falsy under Python truthiness and behaves exactly like an
absent dimension (the other dimension, or the 600 default, drives the
proportional resize), and rendering proceeds normally. -/
theorem generate_zero_dimension_as_absent :
    (∀ (measure : Int → String → Int × Int) (top bottom : String) (bg : PILImage)
      (height : Option Int) (wm : String),
      generateImg measure top bottom bg (some 0) height wm =
        generateImg measure top bottom bg none height wm) ∧
    (∀ (measure : Int → String → Int × Int) (top bottom : String) (bg : PILImage)
      (width : Option Int) (wm : String),
      generateImg measure top bottom bg width (some 0) wm =
        generateImg measure top bottom bg width none wm) :=
  ⟨fun _ _ _ _ _ _ => rfl, fun _ _ _ _ _ _ => rfl⟩

end Memegen
